import Mathlib

/-
Verification of the evm-processor core against its specification.

The definitions below are shallow embeddings of the TypeScript sources:
  * src/src/ingest.ts and src/unnamed/part_001 (two revisions of `ingest.ts`:
    the `Ingest` class, `mapGatewayBlock`, `createObjects`, `createId`);
  * src/unnamed/part_000 (`ArchiveClient.request`, `isRetryableError`,
    `statusToHeight`);
  * src/src/batch/request.ts and src/unnamed/part_002 (three revisions of
    `PlainBatchRequest.merge`);
  * src/src/processor.ts (`EvmBatchProcessor`).

Machine integers of the source are modelled as `Int` (JS numbers hold exact
integers in the ranges used here, and `BigInt(...)` conversions of already
numeric data are the identity in this model).  JavaScript `undefined` on an
optional field is `Option.none`.  Fallible code returns `Option`/`Except`.
-/

namespace EvmProcessor

/-! ## Ranges (`src/util/range`)

`Range` is the inclusive block interval `{from, to?}` of the source; a missing
`to` means open-ended. -/

structure Range where
  «from» : Int
  «to» : Option Int
deriving DecidableEq, Inhabited

/-- Modelled from the spec: util/range is not under src/; spec 4.A gives
`end(r) → to if present else +∞`.  `ltEnd x r` is the source comparison
`x < rangeEnd(r)` (anything is `< Infinity`). -/
def ltEnd (x : Int) (r : Range) : Bool :=
  match r.to with
  | some t => x < t
  | none => true

/-- Modelled from the spec: `leEnd x r` is the comparison `x ≤ rangeEnd(r)`
with `rangeEnd` as in spec 4.A. -/
def leEnd (x : Int) (r : Range) : Bool :=
  match r.to with
  | some t => x ≤ t
  | none => true

/-! ## JavaScript helpers

`jsSlice` is `String.prototype.slice` for non-negative in-range arguments
(out-of-range arguments clamp, which `drop`/`take` also do).  `sortCmp` models
`Array.prototype.sort`: ECMAScript requires a stable sort, and for a
consistent comparator the result is exactly the stable comparator-sorted
order, which a stable insertion sort produces. -/

def jsSlice (s : String) (a b : Nat) : String :=
  String.mk ((s.data.drop a).take (b - a))

def insertCmp {α : Type} (cmp : α → α → Int) (x : α) : List α → List α
  | [] => [x]
  | y :: ys => if cmp x y ≤ 0 then x :: y :: ys else y :: insertCmp cmp x ys

def sortCmp {α : Type} (cmp : α → α → Int) : List α → List α
  | [] => []
  | x :: xs => insertCmp cmp x (sortCmp cmp xs)

theorem insertCmp_perm {α : Type} (cmp : α → α → Int) (x : α) (l : List α) :
    (insertCmp cmp x l).Perm (x :: l) := by
  induction l with
  | nil => simp [insertCmp]
  | cons y ys ih =>
      unfold insertCmp
      by_cases h : cmp x y ≤ 0
      · simp [h]
      · simp only [h, if_false]
        exact (ih.cons y).trans (List.Perm.swap x y ys)

theorem sortCmp_perm {α : Type} (cmp : α → α → Int) (l : List α) :
    (sortCmp cmp l).Perm l := by
  induction l with
  | nil => simp [sortCmp]
  | cons x xs ih =>
      exact (insertCmp_perm cmp x (sortCmp cmp xs)).trans (ih.cons x)

theorem mem_insertCmp {α : Type} {cmp : α → α → Int} {x a : α} {l : List α} :
    a ∈ insertCmp cmp x l ↔ a = x ∨ a ∈ l := by
  constructor
  · intro h
    have := (insertCmp_perm cmp x l).mem_iff.mp h
    simpa using this
  · intro h
    apply (insertCmp_perm cmp x l).mem_iff.mpr
    simpa using h

/-- Sortedness of `insertCmp` with respect to a key order: if the comparator
agrees with the key order on the elements involved, inserting preserves
pairwise key-sortedness. -/
theorem pairwise_insertCmp {α K : Type} [LinearOrder K]
    (cmp : α → α → Int) (key : α → K) (x : α) (l : List α)
    (hx : ∀ b ∈ l, (cmp x b ≤ 0 ↔ key x ≤ key b) ∧ (cmp b x ≤ 0 ↔ key b ≤ key x))
    (hp : l.Pairwise (fun a b => key a ≤ key b)) :
    (insertCmp cmp x l).Pairwise (fun a b => key a ≤ key b) := by
  induction l with
  | nil => simp [insertCmp]
  | cons y ys ih =>
      have hy := hx y (by simp)
      unfold insertCmp
      by_cases h : cmp x y ≤ 0
      · simp only [h, if_true]
        have hxy : key x ≤ key y := (hy.1).mp h
        refine List.Pairwise.cons ?_ hp
        intro a ha
        rcases List.mem_cons.mp ha with rfl | ha
        · exact hxy
        · exact le_trans hxy (List.rel_of_pairwise_cons hp ha)
      · simp only [h, if_false]
        have hyx : key y ≤ key x := by
          have : ¬ key x ≤ key y := fun hk => h ((hy.1).mpr hk)
          exact le_of_not_le this
        refine List.Pairwise.cons ?_ ?_
        · intro a ha
          rcases mem_insertCmp.mp ha with rfl | ha
          · exact hyx
          · exact List.rel_of_pairwise_cons hp ha
        · exact ih (fun b hb => hx b (by simp [hb])) (List.Pairwise.of_cons hp)

/-- Sortedness of `sortCmp` with respect to a key order: if the comparator
agrees with the key order on all pairs of elements of `l`, the result is
pairwise key-sorted. -/
theorem pairwise_sortCmp {α K : Type} [LinearOrder K]
    (cmp : α → α → Int) (key : α → K) (l : List α)
    (hc : ∀ a ∈ l, ∀ b ∈ l, cmp a b ≤ 0 ↔ key a ≤ key b) :
    (sortCmp cmp l).Pairwise (fun a b => key a ≤ key b) := by
  induction l with
  | nil => simp [sortCmp]
  | cons x xs ih =>
      unfold sortCmp
      have hmem : ∀ b ∈ sortCmp cmp xs, b ∈ xs :=
        fun b hb => (sortCmp_perm cmp xs).mem_iff.mp hb
      refine pairwise_insertCmp cmp key x (sortCmp cmp xs) ?_ ?_
      · intro b hb
        have hbx : b ∈ x :: xs := by simp [hmem b hb]
        refine ⟨hc x (by simp) b hbx, hc b hbx x (by simp)⟩
      · exact ih (fun a ha b hb => hc a (by simp [ha]) b (by simp [hb]))

/-! ## Gateway data model (`src/interfaces/gateway.ts`)

Hex-encoded numeric strings of the wire format are modelled as their integer
values; `BigInt(x)` on them is then the identity. -/

structure GwBlock where
  number : Int
  hash : String
  parentHash : String
  nonce : Option Int
  sha3Uncles : String
  logsBloom : String
  transactionsRoot : String
  stateRoot : String
  receiptsRoot : String
  miner : String
  difficulty : String
  totalDifficulty : String
  extraData : String
  size : Int
  gasLimit : Int
  gasUsed : Int
  timestamp : Int
deriving DecidableEq, Inhabited

structure GwLog where
  address : String
  data : String
  index : Int
  removed : Bool
  topics : List String
  transactionIndex : Int
deriving DecidableEq, Inhabited

structure GwTransaction where
  «from» : String
  gas : Option Int
  gasPrice : Option Int
  hash : String
  input : String
  nonce : Option Int
  «to» : Option String
  index : Int
  value : Option Int
  kind : Option Int
  chainId : Option Int
  v : Option Int
  r : String
  s : String
deriving DecidableEq, Inhabited

structure GwBatchBlock where
  block : GwBlock
  logs : List GwLog
  transactions : List GwTransaction
deriving DecidableEq, Inhabited

/-! ## Decoded entities (`src/interfaces/evm.ts`) -/

structure EvmBlock where
  id : String
  height : Int
  hash : String
  parentHash : String
  nonce : Option Int
  sha3Uncles : String
  logsBloom : String
  transactionsRoot : String
  stateRoot : String
  receiptsRoot : String
  miner : String
  difficulty : String
  totalDifficulty : String
  extraData : String
  size : Int
  gasLimit : Int
  gasUsed : Int
  timestamp : Int
deriving DecidableEq, Inhabited

structure EvmTransaction where
  id : String
  «from» : String
  gas : Option Int
  gasPrice : Option Int
  hash : String
  input : String
  nonce : Option Int
  «to» : Option String
  index : Int
  value : Option Int
  kind : Option Int
  chainId : Option Int
  v : Option Int
  r : String
  s : String
deriving DecidableEq, Inhabited

structure EvmLog where
  id : String
  address : String
  data : String
  index : Int
  removed : Bool
  topics : List String
  transactionIndex : Int
deriving DecidableEq, Inhabited

/-- `Item` of `src/unnamed/part_001` (`ingest.ts`): a log item carries its
optionally joined transaction; a transaction item's `address` is optional
(`string | undefined`). -/
inductive Item where
  | evmLog (address : String) (evmLog : EvmLog) (transaction : Option EvmTransaction)
  | transaction (address : Option String) (transaction : EvmTransaction)
deriving DecidableEq, Inhabited

def itemAddress : Item → Option String
  | .evmLog a _ _ => some a
  | .transaction a _ => a

def isTxWithIndex (k : Int) : Item → Bool
  | .transaction _ t => t.index == k
  | _ => false

def isLogWithTxIndex (k : Int) : Item → Bool
  | .evmLog _ l _ => l.transactionIndex == k
  | _ => false

/-! ## JS `Map` used by `createObjects`

Insertion-ordered association list; `set` overwrites an existing key in
place, `get` returns the stored value. -/

def mapSet {α : Type} (m : List (Int × α)) (k : Int) (v : α) : List (Int × α) :=
  if m.any (fun p => p.1 == k) then
    m.map (fun p => if p.1 == k then (k, v) else p)
  else
    m ++ [(k, v)]

def mapGet {α : Type} (m : List (Int × α)) (k : Int) : Option α :=
  (m.find? (fun p => p.1 == k)).map Prod.snd

/-- `createObjects` of `ingest.ts`: builds the per-block index map.  The
source keys by `obj.index`; `index` extracts that field. -/
def createObjects {σ α : Type} (src : List σ) (f : σ → α) (index : α → Int) :
    List (Int × α) :=
  src.foldl (fun m s => let obj := f s; mapSet m (index obj) obj) []

/-- `createId` of `ingest.ts`. -/
def createId (height : Int) (hash : String) (index : Option Int) : String :=
  match index with
  | none => toString height ++ "-" ++ jsSlice hash 3 11
  | some i => toString height ++ "-" ++ toString i ++ "-" ++ jsSlice hash 3 11

/-! ## Block decoder of `src/unnamed/part_001` (`mapGatewayBlock`) -/

/-- The item comparator of `src/unnamed/part_001` lines 280-294.  JS
`x || -1` is `x` when `x ≠ 0` and `-1` otherwise; likewise `x || 1`. -/
def itemCmp : Item → Item → Int
  | .evmLog _ a _, .evmLog _ b _ => a.index - b.index
  | .transaction _ a, .transaction _ b => a.index - b.index
  | .evmLog _ a _, .transaction _ b =>
      let d := a.transactionIndex - b.index
      if d = 0 then -1 else d
  | .transaction _ a, .evmLog _ b _ =>
      let d := a.index - b.transactionIndex
      if d = 0 then 1 else d

def mkEvmLog (block : GwBlock) (go : GwLog) : EvmLog :=
  { id := createId block.number block.hash (some go.index)
    address := go.address
    data := go.data
    index := go.index
    removed := go.removed
    topics := go.topics
    transactionIndex := go.transactionIndex }

/-- The transaction constructor of `mapGatewayBlock`: spreads the gateway
transaction minus `gas`, `gasPrice`, `nonce`, `value`, `v`, then re-adds those
through `BigInt` when not null (identity here). -/
def mkEvmTransaction (block : GwBlock) (go : GwTransaction) : EvmTransaction :=
  { id := createId block.number block.hash (some go.index)
    «from» := go.from
    gas := go.gas
    gasPrice := go.gasPrice
    hash := go.hash
    input := go.input
    nonce := go.nonce
    «to» := go.to
    index := go.index
    value := go.value
    kind := go.kind
    chainId := go.chainId
    v := go.v
    r := go.r
    s := go.s }

structure BlockData where
  header : EvmBlock
  items : List Item
deriving DecidableEq, Inhabited

/-- The first item-building loop of `mapGatewayBlock` (part_001 lines
260-269): one `evmLog` item per gateway log, the log looked up in the
index map (`assertNotNull`, modelled by `Option`), the transaction joined
without assertion. -/
def buildLogItems (logs : List (Int × EvmLog)) (transactions : List (Int × EvmTransaction)) :
    List GwLog → Option (List Item)
  | [] => some []
  | go :: rest => do
      let evmLog ← mapGet logs go.index
      let items ← buildLogItems logs transactions rest
      pure (Item.evmLog evmLog.address evmLog (mapGet transactions go.transactionIndex) :: items)

/-- The second item-building loop of `mapGatewayBlock` (part_001 lines
271-278): one `transaction` item per gateway transaction, with `address`
set to the transaction's `to` field. -/
def buildTxItems (transactions : List (Int × EvmTransaction)) :
    List GwTransaction → Option (List Item)
  | [] => some []
  | go :: rest => do
      let transaction ← mapGet transactions go.index
      let items ← buildTxItems transactions rest
      pure (Item.transaction transaction.to transaction :: items)

/-- `mapGatewayBlock` of `src/unnamed/part_001` lines 234-311.  The
`assertNotNull` on the map lookups is modelled by the `Option` monad (a
failed lookup corresponds to the thrown assertion, caught as a decode
error by `tryMapGatewayBlock`). -/
def mapGatewayBlock (block : GwBatchBlock) : Option BlockData := do
  let logs := createObjects block.logs (mkEvmLog block.block) (fun l => l.index)
  let transactions :=
    createObjects block.transactions (mkEvmTransaction block.block) (fun t => t.index)
  let logItems ← buildLogItems logs transactions block.logs
  let txItems ← buildTxItems transactions block.transactions
  let items := sortCmp itemCmp (logItems ++ txItems)
  pure
    { header :=
        { id := toString block.block.number ++ "-" ++ jsSlice block.block.hash 3 7
          height := block.block.number
          hash := block.block.hash
          parentHash := block.block.parentHash
          nonce := block.block.nonce
          sha3Uncles := block.block.sha3Uncles
          logsBloom := block.block.logsBloom
          transactionsRoot := block.block.transactionsRoot
          stateRoot := block.block.stateRoot
          receiptsRoot := block.block.receiptsRoot
          miner := block.block.miner
          difficulty := block.block.difficulty
          totalDifficulty := block.block.totalDifficulty
          extraData := block.block.extraData
          size := block.block.size
          gasLimit := block.block.gasLimit
          gasUsed := block.block.gasUsed
          timestamp := block.block.timestamp * 1000 }
      items := items }

/-! ## The item order of spec 4.E -/

/-- The total order on items stated in spec 4.E, written from the spec's
words: two logs compare lexicographically by `(transactionIndex, logIndex)`;
two transactions by `transaction.index`; a log and a transaction by their
transaction-level indices, a tie placing the log first. -/
def specLt : Item → Item → Prop
  | .evmLog _ a _, .evmLog _ b _ =>
      a.transactionIndex < b.transactionIndex ∨
        (a.transactionIndex = b.transactionIndex ∧ a.index < b.index)
  | .transaction _ a, .transaction _ b => a.index < b.index
  | .evmLog _ a _, .transaction _ b => a.transactionIndex ≤ b.index
  | .transaction _ a, .evmLog _ b _ => a.index < b.transactionIndex

instance decidableSpecLt : DecidableRel specLt := by
  intro a b
  cases a <;> cases b <;> (simp only [specLt]; infer_instance)

/-- Sort key realising the spec-4.E order: logs are keyed by
`(transactionIndex, 0, logIndex)`, transactions by `(index, 1, 0)`; the
middle component makes a log precede the transaction with its index. -/
def itemKey : Item → Int ×ₗ (Int ×ₗ Int)
  | .evmLog _ a _ => toLex (a.transactionIndex, toLex ((0 : Int), a.index))
  | .transaction _ a => toLex (a.index, toLex ((1 : Int), (0 : Int)))

theorem specLt_iff_key_lt (a b : Item) : specLt a b ↔ itemKey a < itemKey b := by
  cases a <;> cases b <;>
    simp [specLt, itemKey, Prod.Lex.lt_iff, Prod.Lex.le_iff] <;> omega

theorem specLt_iff_key_le (a b : Item) (hne : itemKey a ≠ itemKey b) :
    specLt a b ↔ itemKey a ≤ itemKey b := by
  rw [specLt_iff_key_lt]
  exact ⟨le_of_lt, fun h => lt_of_le_of_ne h hne⟩

/-! ## Lookup lemmas for `createObjects` under distinct indices -/

theorem createObjects_append {σ α : Type} (src : List σ) (f : σ → α) (index : α → Int)
    (m : List (Int × α))
    (hdisj : ∀ p ∈ m, ∀ s ∈ src, p.1 ≠ index (f s))
    (hdist : src.Pairwise (fun x y => index (f x) ≠ index (f y))) :
    src.foldl (fun m s => let obj := f s; mapSet m (index obj) obj) m =
      m ++ src.map (fun s => (index (f s), f s)) := by
  induction src generalizing m with
  | nil => simp
  | cons s rest ih =>
      have hnotin : m.any (fun p => p.1 == index (f s)) = false := by
        rw [List.any_eq_false]
        intro p hp
        simpa using hdisj p hp s (by simp)
      have hstep :
          (mapSet m (index (f s)) (f s)) = m ++ [(index (f s), f s)] := by
        simp [mapSet, hnotin]
      simp only [List.foldl_cons, hstep]
      rw [ih (m ++ [(index (f s), f s)])]
      · simp
      · intro p hp s' hs'
        rcases List.mem_append.mp hp with hp | hp
        · exact hdisj p hp s' (by simp [hs'])
        · simp only [List.mem_singleton] at hp
          subst hp
          exact (List.rel_of_pairwise_cons hdist hs')
      · exact List.Pairwise.of_cons hdist

theorem mapGet_cons_self {α : Type} (k : Int) (v : α) (m : List (Int × α)) :
    mapGet ((k, v) :: m) k = some v := by
  simp [mapGet, List.find?_cons]

theorem mapGet_cons_ne {α : Type} {k k' : Int} (v : α) (m : List (Int × α))
    (h : k' ≠ k) : mapGet ((k', v) :: m) k = mapGet m k := by
  simp [mapGet, List.find?_cons, h]

theorem mapGet_map_list {σ α : Type} (src : List σ) (f : σ → α) (index : α → Int)
    (hdist : src.Pairwise (fun x y => index (f x) ≠ index (f y)))
    (s : σ) (hs : s ∈ src) :
    mapGet (src.map (fun x => (index (f x), f x))) (index (f s)) = some (f s) := by
  induction src with
  | nil => cases hs
  | cons a rest ih =>
      rcases List.mem_cons.mp hs with rfl | hs'
      · simpa using mapGet_cons_self (index (f s)) (f s) _
      · rw [List.map_cons,
          mapGet_cons_ne _ _ (List.rel_of_pairwise_cons hdist hs')]
        exact ih (List.Pairwise.of_cons hdist) hs'

theorem mapGet_createObjects {σ α : Type} (src : List σ) (f : σ → α) (index : α → Int)
    (hdist : src.Pairwise (fun x y => index (f x) ≠ index (f y)))
    (s : σ) (hs : s ∈ src) :
    mapGet (createObjects src f index) (index (f s)) = some (f s) := by
  unfold createObjects
  rw [createObjects_append src f index [] (by simp) hdist, List.nil_append]
  exact mapGet_map_list src f index hdist s hs

/-! ## Builder lemmas -/

theorem buildLogItems_eq_map (lm : List (Int × EvmLog)) (tm : List (Int × EvmTransaction))
    (g : GwLog → EvmLog) (cur : List GwLog)
    (h : ∀ go ∈ cur, mapGet lm go.index = some (g go)) :
    buildLogItems lm tm cur =
      some (cur.map (fun go =>
        Item.evmLog (g go).address (g go) (mapGet tm go.transactionIndex))) := by
  induction cur with
  | nil => simp [buildLogItems]
  | cons go rest ih =>
      have hgo := h go (by simp)
      have hrest := ih (fun x hx => h x (by simp [hx]))
      simp [buildLogItems, hgo, hrest]

theorem buildTxItems_eq_map (tm : List (Int × EvmTransaction))
    (g : GwTransaction → EvmTransaction) (cur : List GwTransaction)
    (h : ∀ go ∈ cur, mapGet tm go.index = some (g go)) :
    buildTxItems tm cur =
      some (cur.map (fun go => Item.transaction (g go).to (g go))) := by
  induction cur with
  | nil => simp [buildTxItems]
  | cons go rest ih =>
      have hgo := h go (by simp)
      have hrest := ih (fun x hx => h x (by simp [hx]))
      simp [buildTxItems, hgo, hrest]

theorem buildLogItems_mem (lm : List (Int × EvmLog)) (tm : List (Int × EvmTransaction))
    (cur : List GwLog) (items : List Item)
    (hb : buildLogItems lm tm cur = some items) :
    ∀ y ∈ items, ∃ l tr, y = Item.evmLog l.address l tr := by
  induction cur generalizing items with
  | nil =>
      simp only [buildLogItems] at hb
      cases hb
      intro y hy
      cases hy
  | cons go rest ih =>
      simp only [buildLogItems, Option.bind_eq_bind, Option.bind_eq_some] at hb
      obtain ⟨e, _, items', hitems', heq⟩ := hb
      have heq' : Item.evmLog e.address e (mapGet tm go.transactionIndex) :: items' = items := by
        simpa using heq
      subst heq'
      intro y hy
      rcases List.mem_cons.mp hy with rfl | hy'
      · exact ⟨e, mapGet tm go.transactionIndex, rfl⟩
      · exact ih items' hitems' y hy'

theorem buildTxItems_mem (tm : List (Int × EvmTransaction))
    (cur : List GwTransaction) (items : List Item)
    (hb : buildTxItems tm cur = some items) :
    ∀ y ∈ items, ∃ t, y = Item.transaction t.to t := by
  induction cur generalizing items with
  | nil =>
      simp only [buildTxItems] at hb
      cases hb
      intro y hy
      cases hy
  | cons go rest ih =>
      simp only [buildTxItems, Option.bind_eq_bind, Option.bind_eq_some] at hb
      obtain ⟨t, _, items', hitems', heq⟩ := hb
      have heq' : Item.transaction t.to t :: items' = items := by simpa using heq
      subst heq'
      intro y hy
      rcases List.mem_cons.mp hy with rfl | hy'
      · exact ⟨t, rfl⟩
      · exact ih items' hitems' y hy'

/-! ## C1: item ordering of the decoded block -/

theorem itemKey_evmLog (a : String) (l : EvmLog) (tr : Option EvmTransaction) :
    itemKey (.evmLog a l tr) = toLex (l.transactionIndex, toLex ((0 : Int), l.index)) := rfl

theorem itemKey_transaction (a : Option String) (t : EvmTransaction) :
    itemKey (.transaction a t) = toLex (t.index, toLex ((1 : Int), (0 : Int))) := rfl

theorem mkEvmLog_index (blk : GwBlock) (go : GwLog) :
    (mkEvmLog blk go).index = go.index := rfl

theorem mkEvmLog_transactionIndex (blk : GwBlock) (go : GwLog) :
    (mkEvmLog blk go).transactionIndex = go.transactionIndex := rfl

theorem mkEvmTransaction_index (blk : GwBlock) (go : GwTransaction) :
    (mkEvmTransaction blk go).index = go.index := rfl

theorem itemCmp_log_log (a a' : String) (x y : EvmLog) (tr tr' : Option EvmTransaction) :
    itemCmp (.evmLog a x tr) (.evmLog a' y tr') = x.index - y.index := rfl

theorem itemCmp_tx_tx (a a' : Option String) (t u : EvmTransaction) :
    itemCmp (.transaction a t) (.transaction a' u) = t.index - u.index := rfl

theorem itemCmp_log_tx (a : String) (x : EvmLog) (tr : Option EvmTransaction)
    (a' : Option String) (t : EvmTransaction) :
    itemCmp (.evmLog a x tr) (.transaction a' t) =
      (if x.transactionIndex - t.index = 0 then -1 else x.transactionIndex - t.index) := rfl

theorem itemCmp_tx_log (a : Option String) (t : EvmTransaction)
    (a' : String) (y : EvmLog) (tr : Option EvmTransaction) :
    itemCmp (.transaction a t) (.evmLog a' y tr) =
      (if t.index - y.transactionIndex = 0 then 1 else t.index - y.transactionIndex) := rfl

theorem key_le_log_log (a a' : String) (x y : EvmLog) (tr tr' : Option EvmTransaction) :
    itemKey (.evmLog a x tr) ≤ itemKey (.evmLog a' y tr') ↔
      x.transactionIndex < y.transactionIndex ∨
        (x.transactionIndex = y.transactionIndex ∧ x.index ≤ y.index) := by
  simp only [itemKey, Prod.Lex.le_iff, Prod.Lex.lt_iff, lt_self_iff_false, true_and,
    and_true, false_or, or_false, false_and, and_false]

theorem key_le_log_tx (a : String) (x : EvmLog) (tr : Option EvmTransaction)
    (a' : Option String) (t : EvmTransaction) :
    itemKey (.evmLog a x tr) ≤ itemKey (.transaction a' t) ↔
      x.transactionIndex ≤ t.index := by
  simp only [itemKey, Prod.Lex.le_iff, Prod.Lex.lt_iff, lt_self_iff_false, true_and,
    and_true, false_or, or_false, false_and, and_false]
  omega

theorem key_le_tx_log (a : Option String) (t : EvmTransaction)
    (a' : String) (y : EvmLog) (tr : Option EvmTransaction) :
    itemKey (.transaction a t) ≤ itemKey (.evmLog a' y tr) ↔
      t.index < y.transactionIndex := by
  simp only [itemKey, Prod.Lex.le_iff, Prod.Lex.lt_iff, lt_self_iff_false, true_and,
    and_true, false_or, or_false, false_and, and_false]
  omega

theorem key_le_tx_tx (a a' : Option String) (t u : EvmTransaction) :
    itemKey (.transaction a t) ≤ itemKey (.transaction a' u) ↔ t.index ≤ u.index := by
  simp only [itemKey, Prod.Lex.le_iff, Prod.Lex.lt_iff, lt_self_iff_false, true_and,
    and_true, false_or, or_false, false_and, and_false]
  omega

/-- C1.  For every decoded block satisfying the per-block index invariants of
real EVM data (distinct log indices, distinct transaction indices, and the
block-global log index increasing with the transaction index — the spec's
"per-block index ordering"), the items array produced by `mapGatewayBlock` is
sorted by the total order of spec 4.E (`specLt`), and in particular every
`evmLog` item with transactionIndex `k` appears before the `transaction` item
whose index is `k`. -/
theorem c1_item_ordering (b : GwBatchBlock)
    (h1 : b.logs.Pairwise (fun x y => x.index ≠ y.index))
    (h2 : b.transactions.Pairwise (fun x y => x.index ≠ y.index))
    (h3 : ∀ x ∈ b.logs, ∀ y ∈ b.logs,
        x.transactionIndex < y.transactionIndex → x.index < y.index)
    (bd : BlockData) (hbd : mapGatewayBlock b = some bd) :
    bd.items.Pairwise specLt ∧
      ∀ (k : Int) (i j : Fin bd.items.length),
        isTxWithIndex k (bd.items.get i) = true →
        isLogWithTxIndex k (bd.items.get j) = true → j < i := by
  classical
  set lm := createObjects b.logs (mkEvmLog b.block) (fun l => l.index) with hlm
  set tm := createObjects b.transactions (mkEvmTransaction b.block) (fun t => t.index)
    with htm
  have hgetL : ∀ go ∈ b.logs, mapGet lm go.index = some (mkEvmLog b.block go) := by
    intro go hgo
    exact mapGet_createObjects b.logs (mkEvmLog b.block) (fun l => l.index)
      (h1.imp (fun h => h)) go hgo
  have hgetT : ∀ go ∈ b.transactions,
      mapGet tm go.index = some (mkEvmTransaction b.block go) := by
    intro go hgo
    exact mapGet_createObjects b.transactions (mkEvmTransaction b.block)
      (fun t => t.index) (h2.imp (fun h => h)) go hgo
  have hL := buildLogItems_eq_map lm tm (mkEvmLog b.block) b.logs hgetL
  have hT := buildTxItems_eq_map tm (mkEvmTransaction b.block) b.transactions hgetT
  set flog : GwLog → Item := fun go =>
    Item.evmLog (mkEvmLog b.block go).address (mkEvmLog b.block go)
      (mapGet tm go.transactionIndex) with hflog
  set ftx : GwTransaction → Item := fun go =>
    Item.transaction (mkEvmTransaction b.block go).to (mkEvmTransaction b.block go)
    with hftx
  have hitems : bd.items = sortCmp itemCmp (b.logs.map flog ++ b.transactions.map ftx) := by
    simp only [mapGatewayBlock, ← hlm, ← htm, hL, hT, Option.bind_eq_bind,
      Option.some_bind] at hbd
    cases hbd
    rfl
  -- comparator agrees with the sort key on all items of this block
  have hc : ∀ x ∈ b.logs.map flog ++ b.transactions.map ftx,
      ∀ y ∈ b.logs.map flog ++ b.transactions.map ftx,
      itemCmp x y ≤ 0 ↔ itemKey x ≤ itemKey y := by
    intro x hx y hy
    rcases List.mem_append.mp hx with hx | hx
    · obtain ⟨gx, hgx, rfl⟩ := List.mem_map.mp hx
      rcases List.mem_append.mp hy with hy | hy
      · obtain ⟨gy, hgy, rfl⟩ := List.mem_map.mp hy
        have m1 := h3 gx hgx gy hgy
        have m2 := h3 gy hgy gx hgx
        rw [hflog]
        rw [itemCmp_log_log, key_le_log_log, mkEvmLog_index, mkEvmLog_index,
          mkEvmLog_transactionIndex, mkEvmLog_transactionIndex]
        omega
      · obtain ⟨gy, hgy, rfl⟩ := List.mem_map.mp hy
        rw [hflog, hftx]
        rw [itemCmp_log_tx, key_le_log_tx, mkEvmLog_transactionIndex,
          mkEvmTransaction_index]
        split <;> omega
    · obtain ⟨gx, hgx, rfl⟩ := List.mem_map.mp hx
      rcases List.mem_append.mp hy with hy | hy
      · obtain ⟨gy, hgy, rfl⟩ := List.mem_map.mp hy
        rw [hflog, hftx]
        rw [itemCmp_tx_log, key_le_tx_log, mkEvmLog_transactionIndex,
          mkEvmTransaction_index]
        split <;> omega
      · obtain ⟨gy, hgy, rfl⟩ := List.mem_map.mp hy
        rw [hftx]
        rw [itemCmp_tx_tx, key_le_tx_tx, mkEvmTransaction_index, mkEvmTransaction_index]
        omega
  -- all items of this block have pairwise distinct sort keys
  have hkne : (b.logs.map flog ++ b.transactions.map ftx).Pairwise
      (fun x y => itemKey x ≠ itemKey y) := by
    rw [List.pairwise_append]
    refine ⟨?_, ?_, ?_⟩
    · rw [List.pairwise_map]
      refine h1.imp ?_
      intro x y hxy hk
      apply hxy
      simp only [hflog, itemKey_evmLog, mkEvmLog, toLex_inj, Prod.mk.injEq] at hk
      exact hk.2.2
    · rw [List.pairwise_map]
      refine h2.imp ?_
      intro x y hxy hk
      apply hxy
      simp only [hftx, itemKey_transaction, mkEvmTransaction, toLex_inj,
        Prod.mk.injEq] at hk
      exact hk.1
    · intro x hx y hy
      obtain ⟨gx, hgx, rfl⟩ := List.mem_map.mp hx
      obtain ⟨gy, hgy, rfl⟩ := List.mem_map.mp hy
      intro hk
      simp only [hflog, hftx, itemKey_evmLog, itemKey_transaction, mkEvmLog,
        mkEvmTransaction, toLex_inj, Prod.mk.injEq] at hk
      exact absurd hk.2.1 (by norm_num)
  have hle := pairwise_sortCmp itemCmp itemKey
    (b.logs.map flog ++ b.transactions.map ftx) hc
  have hne : (sortCmp itemCmp (b.logs.map flog ++ b.transactions.map ftx)).Pairwise
      (fun x y => itemKey x ≠ itemKey y) := by
    refine ((sortCmp_perm itemCmp _).pairwise_iff ?_).mpr hkne
    intro x y hxy hk
    exact hxy hk.symm
  have hspec : bd.items.Pairwise specLt := by
    rw [hitems]
    refine (hle.and hne).imp ?_
    intro x y hxy
    exact (specLt_iff_key_lt x y).mpr (lt_of_le_of_ne hxy.1 hxy.2)
  refine ⟨hspec, ?_⟩
  intro k i j hti hlj
  by_contra hji
  push_neg at hji
  rcases lt_or_eq_of_le hji with hij | hij
  · have := List.pairwise_iff_get.mp hspec i j hij
    revert hti hlj this
    cases hgi : bd.items.get i <;> cases hgj : bd.items.get j <;>
      simp [isTxWithIndex, isLogWithTxIndex, specLt] <;> omega
  · revert hti hlj
    rw [← hij]
    cases hgi : bd.items.get i <;> simp [isTxWithIndex, isLogWithTxIndex]

/-! ## Concrete blocks used to instantiate the theorems -/

def emptyBlockData : BlockData :=
  { header :=
      { id := "", height := 0, hash := "", parentHash := "", nonce := none
        sha3Uncles := "", logsBloom := "", transactionsRoot := "", stateRoot := ""
        receiptsRoot := "", miner := "", difficulty := "", totalDifficulty := ""
        extraData := "", size := 0, gasLimit := 0, gasUsed := 0, timestamp := 0 }
    items := [] }

def gwBlockAt (n : Int) (hash : String) : GwBlock :=
  { number := n, hash := hash, parentHash := "0x00", nonce := some 0
    sha3Uncles := "0x00", logsBloom := "0x00", transactionsRoot := "0x00"
    stateRoot := "0x00", receiptsRoot := "0x00", miner := "0x00"
    difficulty := "0x1", totalDifficulty := "0x1", extraData := "0x"
    size := 100, gasLimit := 30000000, gasUsed := 21000, timestamp := 1600000000 }

def gwLogAt (i ti : Int) (addr : String) : GwLog :=
  { address := addr, data := "0x", index := i, removed := false, topics := []
    transactionIndex := ti }

def gwTxAt (i : Int) (toAddr : Option String) (fromAddr : String) : GwTransaction :=
  { «from» := fromAddr, gas := some 21000, gasPrice := some 1, hash := "0xt"
    input := "0x", nonce := some 0, «to» := toAddr, index := i, value := some 0
    kind := some 0, chainId := some 1, v := some 27, r := "0xr", s := "0xs" }

/-- Scenario S5 of the spec: logs with `(txIndex, logIndex)` equal to
`(0,0), (0,1), (1,2)` and transactions `0, 1`. -/
def s5Block : GwBatchBlock :=
  { block := gwBlockAt 5 "0x123456789abc"
    logs := [gwLogAt 0 0 "0xa", gwLogAt 1 0 "0xa", gwLogAt 2 1 "0xb"]
    transactions := [gwTxAt 0 (some "0xc") "0xf", gwTxAt 1 (some "0xd") "0xf"] }

def s5Decoded : BlockData := (mapGatewayBlock s5Block).getD emptyBlockData

/-- Witness for C1: the S5 block satisfies the index invariants and its
decoded items are sorted per spec 4.E. -/
theorem c1_item_ordering_witness :
    s5Block.logs.Pairwise (fun x y => x.index ≠ y.index) ∧
      s5Block.transactions.Pairwise (fun x y => x.index ≠ y.index) ∧
      (∀ x ∈ s5Block.logs, ∀ y ∈ s5Block.logs,
        x.transactionIndex < y.transactionIndex → x.index < y.index) ∧
      mapGatewayBlock s5Block = some s5Decoded ∧
      (s5Decoded.items.Pairwise specLt ∧
        ∀ (k : Int) (i j : Fin s5Decoded.items.length),
          isTxWithIndex k (s5Decoded.items.get i) = true →
          isLogWithTxIndex k (s5Decoded.items.get j) = true → j < i) :=
  ⟨by decide, by decide, by decide, by decide,
    c1_item_ordering s5Block (by decide) (by decide) (by decide) s5Decoded (by decide)⟩

/-! ## C4: the `address` field of decoded items -/

/-- The address rule as claim C4 states it, written from the spec's words:
a log item's address is the log's emitter address; a transaction item's
address is the transaction's `to` when present and its `from` otherwise. -/
def claimItemAddress : Item → Option String
  | .evmLog _ l _ => some l.address
  | .transaction _ t => some (t.to.getD t.from)

theorem mem_sortCmp {α : Type} {cmp : α → α → Int} {a : α} {l : List α} :
    a ∈ sortCmp cmp l ↔ a ∈ l :=
  (sortCmp_perm cmp l).mem_iff

/-- Amended C4: every `transaction` item's address is the transaction's `to`
field (which stays absent for contract creations — the decoder never falls
back to `from`), and every `evmLog` item's address is the log's emitter
address. -/
theorem c4_item_address (b : GwBatchBlock) (bd : BlockData)
    (hbd : mapGatewayBlock b = some bd) :
    ∀ it ∈ bd.items,
      (∀ a t, it = Item.transaction a t → a = t.to) ∧
      (∀ a l tr, it = Item.evmLog a l tr → a = l.address) := by
  simp only [mapGatewayBlock, Option.bind_eq_bind, Option.bind_eq_some] at hbd
  obtain ⟨logItems, hLB, txItems, hTB, heq⟩ := hbd
  have hitems : bd.items = sortCmp itemCmp (logItems ++ txItems) := by
    have := Option.some_inj.mp heq
    rw [← this]
  intro it hit
  rw [hitems] at hit
  rcases List.mem_append.mp (mem_sortCmp.mp hit) with hmem | hmem
  · obtain ⟨l, tr, rfl⟩ := buildLogItems_mem _ _ _ _ hLB it hmem
    constructor
    · intro a t h
      cases h
    · intro a l' tr' h
      cases h
      rfl
  · obtain ⟨t, rfl⟩ := buildTxItems_mem _ _ _ hTB it hmem
    constructor
    · intro a t' h
      cases h
      rfl
    · intro a l' tr' h
      cases h

/-- A contract-creation transaction: `to` is absent, `from` is `0xf`. -/
def c4Block : GwBatchBlock :=
  { block := gwBlockAt 7 "0x123456789abc"
    logs := []
    transactions := [gwTxAt 0 none "0xf"] }

def c4Decoded : BlockData := (mapGatewayBlock c4Block).getD emptyBlockData

def c4DecodedTx : EvmTransaction := mkEvmTransaction c4Block.block (gwTxAt 0 none "0xf")

/-- Counterexample to C4 as stated: for the contract-creation transaction of
`c4Block` the decoder produces an item whose address is `none`
(`transaction.to`), while the claim demands the `from` fallback `0xf`. -/
theorem c4_counterexample :
    (mapGatewayBlock c4Block).map BlockData.items =
        some [Item.transaction none c4DecodedTx] ∧
      itemAddress (Item.transaction none c4DecodedTx) = none ∧
      claimItemAddress (Item.transaction none c4DecodedTx) = some "0xf" ∧
      (none : Option String) ≠ some "0xf" :=
  ⟨by decide, by decide, by decide, by decide⟩

/-- Witness for the amended C4 at the concrete block `c4Block`. -/
theorem c4_item_address_witness :
    mapGatewayBlock c4Block = some c4Decoded ∧
      ∀ it ∈ c4Decoded.items,
        (∀ a t, it = Item.transaction a t → a = t.to) ∧
        (∀ a l tr, it = Item.evmLog a l tr → a = l.address) :=
  ⟨by decide, c4_item_address c4Block c4Decoded (by decide)⟩

/-! ## Ingest fetch loop: plan and range bookkeeping

`Ingest.fetchLoop` (part_001 lines 69-144) keeps a mutable queue `batches` of
plan segments.  After each query response it computes `to = nextBlock - 1`,
replaces the head segment by `{from: to+1, to: batch.range.to}` when
`to < rangeEnd(batch.range)` and pops it otherwise, and pushes a batch with
range `{from: batch.range.from, to}` onto the prefetch queue.  The generator
`getBlocks` yields the queue in FIFO order, so the emitted batches appear in
the order the loop produced them; `fetchBatches` replays that sequential
order for a given list of response `nextBlock` cursors. -/

structure PlanBatch (R : Type) where
  range : Range
  request : R
deriving DecidableEq

structure ClosedRange where
  «from» : Int
  «to» : Int
deriving DecidableEq

/-- One response-processing step of `fetchLoop` (part_001 lines 111-128):
returns the emitted `(range, request)` pair and the updated plan. -/
def fetchStep {R : Type} (batch : PlanBatch R) (nextBlock : Int)
    (tail : List (PlanBatch R)) : (ClosedRange × R) × List (PlanBatch R) :=
  let fromBlock := batch.range.from
  let toBlock := nextBlock - 1
  if ltEnd toBlock batch.range then
    (({ «from» := fromBlock, «to» := toBlock }, batch.request),
      { range := { «from» := toBlock + 1, «to» := batch.range.to },
        request := batch.request } :: tail)
  else
    (({ «from» := fromBlock, «to» := toBlock }, batch.request), tail)

/-- The batches emitted by repeatedly running `fetchStep` on the head of the
plan, one response cursor per iteration. -/
def fetchBatches {R : Type} : List (PlanBatch R) → List Int → List (ClosedRange × R)
  | [], _ => []
  | _ :: _, [] => []
  | batch :: tail, nb :: rest =>
      (fetchStep batch nb tail).1 :: fetchBatches (fetchStep batch nb tail).2 rest

theorem fetchStep_fst {R : Type} (batch : PlanBatch R) (nb : Int)
    (tail : List (PlanBatch R)) :
    (fetchStep batch nb tail).1 =
      ({ «from» := batch.range.from, «to» := nb - 1 }, batch.request) := by
  unfold fetchStep
  by_cases h : ltEnd (nb - 1) batch.range = true <;> simp [h]

/-- C2.  Partial-range handling: with `to = nextBlock - 1`, when
`to < rangeEnd(batch.range)` the head plan segment is replaced by
`{from: to+1, to: batch.range.to}` carrying the same request and the emitted
batch's range is `{from: batch.range.from, to: nextBlock - 1}`; otherwise the
head segment is popped.  Consequently the S3 scenario (plan
`[{from:10,to:20}]`, first response `nextBlock = 15`, second response
covering the rest) yields two batches with ranges `{10,14}` then `{15,20}`. -/
theorem c2_partial_range {R : Type} (batch : PlanBatch R) (nextBlock : Int)
    (tail : List (PlanBatch R)) (r : R) :
    (ltEnd (nextBlock - 1) batch.range = true →
      fetchStep batch nextBlock tail =
        (({ «from» := batch.range.from, «to» := nextBlock - 1 }, batch.request),
          { range := { «from» := nextBlock - 1 + 1, «to» := batch.range.to },
            request := batch.request } :: tail)) ∧
    (ltEnd (nextBlock - 1) batch.range = false →
      fetchStep batch nextBlock tail =
        (({ «from» := batch.range.from, «to» := nextBlock - 1 }, batch.request), tail)) ∧
    fetchBatches
        [{ range := { «from» := 10, «to» := some 20 }, request := r }] [15, 21] =
      [({ «from» := 10, «to» := 14 }, r), ({ «from» := 15, «to» := 20 }, r)] := by
  refine ⟨?_, ?_, ?_⟩
  · intro h
    unfold fetchStep
    simp [h]
  · intro h
    unfold fetchStep
    simp [h]
  · norm_num [fetchBatches, fetchStep, ltEnd]

/-- Witness for C2 at a concrete plan segment and response. -/
theorem c2_partial_range_witness :
    ltEnd (15 - 1) { «from» := 10, «to» := some 20 } = true ∧
      fetchStep
          { range := { «from» := 10, «to» := some 20 }, request := (0 : Int) } 15 [] =
        (({ «from» := 10, «to» := 15 - 1 }, 0),
          [{ range := { «from» := 15 - 1 + 1, «to» := some 20 }, request := 0 }]) :=
  ⟨by decide,
    (c2_partial_range { range := { «from» := 10, «to» := some 20 }, request := (0 : Int) }
      15 [] 0).1 (by decide)⟩

/-! ## C7: batch monotonicity -/

/-- Plan segment `a` ends strictly before segment `b` starts (the disjoint,
strictly increasing plan invariant; an open-ended segment can only be
last). -/
def segBefore {R : Type} (a b : PlanBatch R) : Bool :=
  match a.range.to with
  | some t => t < b.range.from
  | none => false

/-- Archive contract on the response cursors: a response to a query over the
head segment never reports a `nextBlock` beyond `rangeEnd(range) + 1`
(`buildBatchQuery` sends `toBlock = min(archiveHeight, rangeEnd(range))`). -/
def respsValid {R : Type} : List (PlanBatch R) → List Int → Bool
  | _, [] => true
  | [], _ => true
  | batch :: tail, nb :: rest =>
      leEnd (nb - 1) batch.range && respsValid (fetchStep batch nb tail).2 rest

theorem fetchBatches_head_from {R : Type} (p : List (PlanBatch R)) (r : List Int)
    (x : ClosedRange × R) (xs : List (ClosedRange × R))
    (h : fetchBatches p r = x :: xs) :
    ∃ pb ptail, p = pb :: ptail ∧ x.1.from = pb.range.from := by
  match p, r with
  | [], _ => simp [fetchBatches] at h
  | _ :: _, [] => simp [fetchBatches] at h
  | batch :: tail, nb :: rest =>
      refine ⟨batch, tail, rfl, ?_⟩
      simp only [fetchBatches] at h
      have hx : x = (fetchStep batch nb tail).1 := (List.cons_eq_cons.mp h.symm).1
      rw [hx, fetchStep_fst]

/-- C7.  For every initial plan whose segments are disjoint and strictly
increasing, and responses that respect the queried ranges, the sequence of
batches emitted by the fetch loop satisfies
`B i .range.to < B (i+1) .range.from` for every consecutive pair. -/
theorem c7_batch_monotone {R : Type} (plan : List (PlanBatch R)) (resps : List Int)
    (hplan : List.Chain' (fun a b => segBefore a b = true) plan)
    (hresp : respsValid plan resps = true) :
    List.Chain' (fun e1 e2 => e1.1.to < e2.1.from) (fetchBatches plan resps) := by
  induction resps generalizing plan with
  | nil =>
      match plan with
      | [] => simp [fetchBatches]
      | _ :: _ => simp [fetchBatches]
  | cons nb rest ih =>
      match plan with
      | [] => simp [fetchBatches]
      | batch :: tail =>
          simp only [respsValid, Bool.and_eq_true] at hresp
          obtain ⟨hle, hresp'⟩ := hresp
          have hplan' : List.Chain' (fun a b => segBefore a b = true)
              (fetchStep batch nb tail).2 := by
            unfold fetchStep
            by_cases hc : ltEnd (nb - 1) batch.range = true
            · simp only [hc, if_true]
              rw [List.chain'_cons']
              refine ⟨?_, hplan.tail⟩
              intro y hy
              rcases tail with _ | ⟨b2, tail'⟩
              · simp at hy
              · simp only [List.head?_cons, Option.mem_some_iff] at hy
                subst hy
                have := List.chain'_cons.mp hplan
                exact this.1
            · simp only [hc, if_false]
              exact hplan.tail
          simp only [fetchBatches]
          rw [List.chain'_cons']
          refine ⟨?_, ih (fetchStep batch nb tail).2 hplan' hresp'⟩
          intro y hy
          rcases hfb : fetchBatches (fetchStep batch nb tail).2 rest with _ | ⟨x, xs⟩
          · rw [hfb] at hy
            simp at hy
          · rw [hfb] at hy
            simp only [List.head?_cons, Option.mem_some_iff] at hy
            subst hy
            obtain ⟨pb, ptail, hp, hxfrom⟩ := fetchBatches_head_from _ _ _ _ hfb
            rw [fetchStep_fst, hxfrom]
            show nb - 1 < pb.range.from
            by_cases hc : ltEnd (nb - 1) batch.range = true
            · have hp' :
                  ({ range := { «from» := nb - 1 + 1, «to» := batch.range.to },
                      request := batch.request } :: tail : List (PlanBatch R)) =
                    pb :: ptail := by
                simpa [fetchStep, hc] using hp
              have hpb := (List.cons_eq_cons.mp hp').1
              rw [← hpb]
              show nb - 1 < nb - 1 + 1
              omega
            · have hp' : tail = pb :: ptail := by
                simpa [fetchStep, hc] using hp
              have hchain := List.chain'_cons.mp (hp' ▸ hplan)
              have hseg : segBefore batch pb = true := hchain.1
              rcases hto : batch.range.to with _ | t
              · exfalso
                apply hc
                unfold ltEnd
                rw [hto]
              · have hle' : nb - 1 ≤ t := by
                  unfold leEnd at hle
                  rw [hto] at hle
                  exact of_decide_eq_true hle
                have hfrom : t < pb.range.from := by
                  unfold segBefore at hseg
                  rw [hto] at hseg
                  exact of_decide_eq_true hseg
                omega

def c7PlanW : List (PlanBatch Int) :=
  [{ range := { «from» := 10, «to» := some 20 }, request := 1 },
    { range := { «from» := 25, «to» := some 30 }, request := 2 }]

def c7RespsW : List Int := [15, 21, 31]

/-- Witness for C7: a two-segment plan with a partial first response yields
three batches with strictly increasing ranges. -/
theorem c7_batch_monotone_witness :
    List.Chain' (fun a b => segBefore a b = true) c7PlanW ∧
      respsValid c7PlanW c7RespsW = true ∧
      List.Chain' (fun e1 e2 => e1.1.to < e2.1.from) (fetchBatches c7PlanW c7RespsW) :=
  ⟨List.Chain.cons (by decide) List.Chain.nil, by decide,
    c7_batch_monotone c7PlanW c7RespsW (List.Chain.cons (by decide) List.Chain.nil)
      (by decide)⟩

/-! ## C3: `PlainBatchRequest.merge`

The repository carries three revisions of `batch/request.ts`.  `SrcBatch`
embeds `src/src/batch/request.ts`, whose `merge` assigns only `result.logs`
(the `transactions` list of the fresh result object stays `[]`).
`UnnamedBatchB` embeds the second revision in `src/unnamed/part_002`
(lines 62-86), which concatenates both clause lists and ORs the
`includeAllBlocks` flag. -/

/-- A log clause.  The field-selection payload `data` is opaque to every
operation verified here (the clause lists are only concatenated), so it is
modelled as an abstract optional token. -/
structure LogReq where
  address : Option (List String)
  topics : Option (List (List String))
  data : Option Unit
deriving DecidableEq

structure TransactionReq where
  address : Option (List String)
  sighash : Option (List String)
  data : Option Unit
deriving DecidableEq

namespace SrcBatch

structure PlainBatchRequest where
  logs : List LogReq
  transactions : List TransactionReq
deriving DecidableEq

/-- `merge` of `src/src/batch/request.ts` lines 33-38: only `logs` is
assigned on the fresh result; `transactions` keeps its initializer `[]`. -/
def merge (a other : PlainBatchRequest) : PlainBatchRequest :=
  { logs := a.logs ++ other.logs
    transactions := [] }

end SrcBatch

namespace UnnamedBatchB

structure PlainBatchRequest where
  logs : List LogReq
  transactions : List TransactionReq
  includeAllBlocks : Bool
deriving DecidableEq

/-- `merge` of `src/unnamed/part_002` lines 79-85. -/
def merge (a other : PlainBatchRequest) : PlainBatchRequest :=
  { logs := a.logs ++ other.logs
    transactions := a.transactions ++ other.transactions
    includeAllBlocks := a.includeAllBlocks || other.includeAllBlocks }

end UnnamedBatchB

def c3ReqA : SrcBatch.PlainBatchRequest :=
  { logs := [{ address := some ["0xa"], topics := none, data := none }]
    transactions := [{ address := some ["0xa"], sighash := none, data := none }] }

def c3ReqB : SrcBatch.PlainBatchRequest :=
  { logs := [{ address := some ["0xb"], topics := none, data := none }]
    transactions := [{ address := some ["0xb"], sighash := none, data := none }] }

/-- C3 evaluated.  The part_002 revision satisfies the claim in full
(both clause lists concatenated in registration order, flags ORed), but
`src/src/batch/request.ts` drops the transaction clauses: merging two
requests that each carry one transaction clause yields an empty
transaction clause list instead of the two-clause concatenation. -/
theorem c3_merge_eval :
    (∀ a other : UnnamedBatchB.PlainBatchRequest,
        (UnnamedBatchB.merge a other).logs = a.logs ++ other.logs ∧
        (UnnamedBatchB.merge a other).transactions =
          a.transactions ++ other.transactions ∧
        (UnnamedBatchB.merge a other).includeAllBlocks =
          (a.includeAllBlocks || other.includeAllBlocks)) ∧
      (SrcBatch.merge c3ReqA c3ReqB).logs = c3ReqA.logs ++ c3ReqB.logs ∧
      (SrcBatch.merge c3ReqA c3ReqB).transactions = [] ∧
      c3ReqA.transactions ++ c3ReqB.transactions ≠ [] :=
  ⟨fun a other => ⟨rfl, rfl, rfl⟩, rfl, rfl, by decide⟩

/-! ## C5/C6: archive client (`src/unnamed/part_000`)

`performFetch` either returns a decoded value, or throws: `HttpError` for a
non-ok status, a node-fetch `FetchError` (with a `type` string and message)
for transport and JSON-decode failures, `ArchiveResponseError` for a
response with a non-empty top-level `errors` array.  `FetchOutcome` is the
result of one attempt as observed by the retry loop. -/

inductive FetchOutcome where
  | success
  | httpError (status : Int)
  | fetchError (type : String) (message : String)
  | archiveResponseError
deriving DecidableEq

/-- `isRetryableError` of part_000 lines 96-119.  `HttpError` retries on
429/502/503; `FetchError` retries on the `body-timeout`/`request-timeout`
types and on `system` errors whose message starts with `request to`
(connection-reset/DNS failures); everything else - including a successful
value - is not retryable. -/
def isRetryableError : FetchOutcome → Bool
  | .httpError status => status == 429 || status == 502 || status == 503
  | .fetchError t msg =>
      if t == "body-timeout" || t == "request-timeout" then true
      else if t == "system" then msg.startsWith "request to"
      else false
  | .success => false
  | .archiveResponseError => false

def backoffSchedule : List Nat := [100, 500, 2000, 5000, 10000, 20000]

inductive RequestResult where
  | ok
  | thrown (e : FetchOutcome)
  | pending
deriving DecidableEq

/-- The retry loop of `ArchiveClient.request` (part_000 lines 53-69),
replayed over a list of attempt outcomes.  It returns the list of
`(errorsInRow, backoff)` pairs passed to the `onRetry` observer, in order,
and the final result (`pending` when the outcome list ends while the loop
would keep retrying).  The source computes
`timeout = backoff[min(errors, backoff.length - 1)]` before incrementing
`errors` and reports the incremented value. -/
def requestLoop : Nat → List FetchOutcome → List (Nat × Nat) × RequestResult
  | _, [] => ([], .pending)
  | errors, o :: rest =>
      if isRetryableError o then
        let timeout := backoffSchedule.getD (min errors (backoffSchedule.length - 1)) 0
        let next := requestLoop (errors + 1) rest
        ((errors + 1, timeout) :: next.1, next.2)
      else
        match o with
        | .success => ([], .ok)
        | e => ([], .thrown e)

theorem requestLoop_replicate (f : FetchOutcome) (hf : isRetryableError f = true)
    (k errors : Nat) :
    requestLoop errors (List.replicate k f ++ [.success]) =
      ((List.range k).map
        (fun j => (errors + j + 1, backoffSchedule.getD (min (errors + j) 5) 0)), .ok) := by
  induction k generalizing errors with
  | zero =>
      simp [requestLoop, isRetryableError]
  | succ n ih =>
      rw [List.replicate_succ, List.cons_append, List.range_succ_eq_map]
      simp only [requestLoop, hf, if_true, ih (errors + 1), List.map_cons, List.map_map]
      congr 1
      congr 1
      apply List.map_congr_left
      intro j hj
      simp only [Function.comp_apply]
      have h1 : errors + 1 + j = errors + Nat.succ j := by omega
      rw [h1]

/-- C5.  Retry behaviour of `ArchiveClient.request`: for every run of `k`
consecutive retryable failures followed by a success, the `j`-th retry
(1-based) waits `backoff[min(j-1, 5)]` ms with
`backoff = [100, 500, 2000, 5000, 10000, 20000]` and invokes the `onRetry`
observer with `errorsInRow = j` and that backoff (so every retry from the 7th
on waits 20000 ms); any non-retryable error is thrown immediately without a
retry; retryable are exactly HTTP 429/502/503 and the
timeout/connection-reset/DNS transport errors, while other HTTP statuses,
JSON decode failures and archive error envelopes are not. -/
theorem c5_retry_backoff :
    (∀ (k : Nat) (f : FetchOutcome), isRetryableError f = true →
      requestLoop 0 (List.replicate k f ++ [.success]) =
        ((List.range k).map (fun j => (j + 1, backoffSchedule.getD (min j 5) 0)),
          .ok)) ∧
      (∀ j : Nat, 6 ≤ j → backoffSchedule.getD (min j 5) 0 = 20000) ∧
      (∀ (e : FetchOutcome) (rest : List FetchOutcome),
        isRetryableError e = false → e ≠ .success →
        requestLoop 0 (e :: rest) = ([], .thrown e)) ∧
      isRetryableError (.httpError 429) = true ∧
      isRetryableError (.httpError 502) = true ∧
      isRetryableError (.httpError 503) = true ∧
      (∀ s : Int, s ≠ 429 → s ≠ 502 → s ≠ 503 →
        isRetryableError (.httpError s) = false) ∧
      (∀ m, isRetryableError (.fetchError "body-timeout" m) = true) ∧
      (∀ m, isRetryableError (.fetchError "request-timeout" m) = true) ∧
      (∀ m, m.startsWith "request to" = true →
        isRetryableError (.fetchError "system" m) = true) ∧
      (∀ m, isRetryableError (.fetchError "invalid-json" m) = false) ∧
      isRetryableError .archiveResponseError = false := by
  refine ⟨?_, ?_, ?_, by decide, by decide, by decide, ?_, ?_, ?_, ?_, ?_, by decide⟩
  · intro k f hf
    have h := requestLoop_replicate f hf k 0
    simpa using h
  · intro j hj
    have hmin : min j 5 = 5 := by omega
    rw [hmin]
    rfl
  · intro e rest he hs
    cases e with
    | success => exact absurd rfl hs
    | httpError s => simp [requestLoop, he]
    | fetchError t m => simp [requestLoop, he]
    | archiveResponseError => simp [requestLoop, he]
  · intro s h1 h2 h3
    simp [isRetryableError, h1, h2, h3]
  · intro m
    simp [isRetryableError]
  · intro m
    simp [isRetryableError]
  · intro m hm
    simp [isRetryableError, hm]
  · intro m
    simp [isRetryableError]

/-- Witness for C5: two consecutive 503s then success retries with backoffs
100 and 500 ms and errorsInRow 1 and 2; a 404 is thrown at once. -/
theorem c5_retry_backoff_witness :
    isRetryableError (.httpError 503) = true ∧
      requestLoop 0 (List.replicate 2 (FetchOutcome.httpError 503) ++ [.success]) =
        ((List.range 2).map (fun j => (j + 1, backoffSchedule.getD (min j 5) 0)),
          .ok) ∧
      isRetryableError (.httpError 404) = false ∧
      FetchOutcome.httpError 404 ≠ .success ∧
      requestLoop 0 [FetchOutcome.httpError 404] = ([], .thrown (.httpError 404)) :=
  ⟨by decide, c5_retry_backoff.1 2 (.httpError 503) (by decide), by decide, by decide,
    c5_retry_backoff.2.2.1 (.httpError 404) [] (by decide) (by decide)⟩

/-! ## C6: `statusToHeight` -/

structure StatusResponse where
  parquetBlockNumber : Int
  dbMaxBlockNumber : Int
  dbMinBlockNumber : Int
deriving DecidableEq

/-- `statusToHeight` of part_000 lines 144-151. -/
def statusToHeight (status : StatusResponse) : Int :=
  let height :=
    if status.parquetBlockNumber > status.dbMinBlockNumber then status.dbMaxBlockNumber
    else status.parquetBlockNumber
  if height == 0 then -1 else height

/-- The all-zero status of scenario S1 (empty archive). -/
def s1Status : StatusResponse := ⟨0, 0, 0⟩

/-- C6.  The height is `dbMaxBlockNumber` when
`parquetBlockNumber > dbMinBlockNumber` and `parquetBlockNumber` otherwise,
with a result of `0` remapped to `-1`; in particular the all-zero status of
scenario S1 yields `-1`. -/
theorem c6_status_height :
    (∀ s : StatusResponse, s.parquetBlockNumber > s.dbMinBlockNumber →
      s.dbMaxBlockNumber ≠ 0 → statusToHeight s = s.dbMaxBlockNumber) ∧
      (∀ s : StatusResponse, ¬ s.parquetBlockNumber > s.dbMinBlockNumber →
        s.parquetBlockNumber ≠ 0 → statusToHeight s = s.parquetBlockNumber) ∧
      (∀ s : StatusResponse,
        (if s.parquetBlockNumber > s.dbMinBlockNumber then s.dbMaxBlockNumber
          else s.parquetBlockNumber) = 0 → statusToHeight s = -1) ∧
      statusToHeight s1Status = -1 := by
  refine ⟨?_, ?_, ?_, by decide⟩
  · intro s h1 h2
    simp [statusToHeight, h1, h2]
  · intro s h1 h2
    simp [statusToHeight, h1, h2]
  · intro s h1
    simp only [statusToHeight, h1]
    split at h1 <;> simp_all [statusToHeight]

def c6StatusA : StatusResponse := ⟨7, 42, 3⟩

def c6StatusB : StatusResponse := ⟨5, 9, 5⟩

/-- Witness for C6 at concrete statuses. -/
theorem c6_status_height_witness :
    (c6StatusA.parquetBlockNumber > c6StatusA.dbMinBlockNumber ∧
        statusToHeight c6StatusA = c6StatusA.dbMaxBlockNumber) ∧
      (¬ c6StatusB.parquetBlockNumber > c6StatusB.dbMinBlockNumber ∧
        statusToHeight c6StatusB = c6StatusB.parquetBlockNumber) :=
  ⟨⟨by decide, c6_status_height.1 c6StatusA (by decide) (by decide)⟩,
    ⟨by decide, c6_status_height.2.1 c6StatusB (by decide) (by decide)⟩⟩

/-! ## C8: processor startup range (`src/src/processor.ts` lines 217-241) -/

/-- `getWholeBlockRange`: `this.options.blockRange || {from: 0}`. -/
def getWholeBlockRange (blockRange : Option Range) : Range :=
  blockRange.getD { «from» := 0, «to» := none }

/-- The startup decision of `EvmBatchProcessor.run` after
`heightAtStart = await db.connect()`: `none` models the clean `return`
("nothing to do") taken when `blockRange.to != null &&
blockRange.to < heightAtStart + 1`; otherwise the effective range keeps the
upper bound and clamps `from` to `Math.max(heightAtStart + 1, from)`. -/
def startupRange (heightAtStart : Int) (configured : Option Range) : Option Range :=
  let blockRange := getWholeBlockRange configured
  match blockRange.to with
  | some t =>
      if t < heightAtStart + 1 then none
      else some { «from» := max (heightAtStart + 1) blockRange.from, «to» := blockRange.to }
  | none => some { «from» := max (heightAtStart + 1) blockRange.from, «to» := none }

/-- C8.  If the configured upper bound is below `heightAtStart + 1` the run
terminates cleanly without fetching; otherwise ingestion proceeds over
`{from: max(heightAtStart + 1, configured.from), to: configured.to}`.
Scenario S6: `connect()` returning 99 with configured `{from:0, to:200}`
starts fetching at block 100. -/
theorem c8_startup_range :
    (∀ (h : Int) (r : Range) (t : Int), r.to = some t → t < h + 1 →
      startupRange h (some r) = none) ∧
      (∀ (h : Int) (r : Range) (t : Int), r.to = some t → ¬ t < h + 1 →
        startupRange h (some r) =
          some { «from» := max (h + 1) r.from, «to» := r.to }) ∧
      (∀ (h : Int) (r : Range), r.to = none →
        startupRange h (some r) =
          some { «from» := max (h + 1) r.from, «to» := none }) ∧
      startupRange 99 (some { «from» := 0, «to» := some 200 }) =
        some { «from» := 100, «to» := some 200 } := by
  refine ⟨?_, ?_, ?_, by decide⟩
  · intro h r t ht hlt
    simp [startupRange, getWholeBlockRange, ht, hlt]
  · intro h r t ht hlt
    simp [startupRange, getWholeBlockRange, ht, hlt]
  · intro h r ht
    simp [startupRange, getWholeBlockRange, ht]

/-- Witness for C8: a finished range terminates cleanly, the S6 range is
clamped to start at 100. -/
theorem c8_startup_range_witness :
    (({ «from» := 0, «to» := some 200 } : Range).to = some 200 ∧ (200 : Int) < 300 + 1 ∧
        startupRange 300 (some { «from» := 0, «to» := some 200 }) = none) ∧
      (({ «from» := 0, «to» := some 200 } : Range).to = some 200 ∧
        ¬ (200 : Int) < 99 + 1 ∧
        startupRange 99 (some { «from» := 0, «to» := some 200 }) =
          some { «from» := max (99 + 1) 0, «to» := some 200 }) :=
  ⟨⟨rfl, by decide,
      c8_startup_range.1 300 { «from» := 0, «to» := some 200 } 200 rfl (by decide)⟩,
    ⟨rfl, by decide,
      c8_startup_range.2.1 99 { «from» := 0, «to» := some 200 } 200 rfl (by decide)⟩⟩

/-! ## C9: archive height monotonicity -/

/-- `Ingest.setArchiveHeight` (src/src/ingest.ts lines 182-184 and part_001
lines 196-198): `this.archiveHeight = Math.max(this.archiveHeight, height)`.
Both the height poll (`fetchArchiveHeight`) and query-response processing
write the field only through this method. -/
def setArchiveHeight (archiveHeight height : Int) : Int :=
  max archiveHeight height

/-- `Ingest.getLatestKnownArchiveHeight`: returns the field. -/
def getLatestKnownArchiveHeight (archiveHeight : Int) : Int :=
  archiveHeight

theorem chain'_scanl_setArchiveHeight (init : Int) (l : List Int) :
    List.Chain' (· ≤ ·) (List.scanl setArchiveHeight init l) := by
  induction l generalizing init with
  | nil => simp
  | cons x xs ih =>
      rw [List.scanl_cons, List.singleton_append, List.chain'_cons']
      refine ⟨?_, ih (setArchiveHeight init x)⟩
      intro y hy
      have hh : (List.scanl setArchiveHeight (setArchiveHeight init x) xs).head? =
          some (setArchiveHeight init x) := by
        cases xs <;> simp [List.scanl]
      rw [hh, Option.mem_some_iff] at hy
      subst hy
      exact le_max_left init x

/-- C9.  The `archiveHeight` field starts at `-1` and every write runs
through `setArchiveHeight`, which takes the max with the previous value:
the sequence of field values over any update sequence is monotonically
non-decreasing, and the getter never returns less than an earlier return. -/
theorem c9_height_monotone :
    (∀ cur h : Int, getLatestKnownArchiveHeight cur ≤
        getLatestKnownArchiveHeight (setArchiveHeight cur h)) ∧
      ∀ updates : List Int,
        List.Chain' (· ≤ ·) (List.scanl setArchiveHeight (-1) updates) :=
  ⟨fun cur h => le_max_left cur h,
    fun updates => chain'_scanl_setArchiveHeight (-1) updates⟩

/-- Witness for C9 at a concrete update sequence (poll results 5, 3, 10). -/
theorem c9_height_monotone_witness :
    List.Chain' (· ≤ ·) (List.scanl setArchiveHeight (-1) [5, 3, 10]) :=
  c9_height_monotone.2 [5, 3, 10]

/-! ## C10: configuration methods after `run()` (`src/src/processor.ts`)

`EvmBatchProcessor` is mutable state (registered batches, options, data
source, a `running` flag).  Methods that throw are modelled as `Except`:
`assertNotRunning` is each method's first statement, so on error no field
has been mutated and the state is unchanged. -/

structure DataSource where
  archive : String
  chain : Option String
deriving DecidableEq

structure ProcOptions where
  prometheusPort : Option Int
  blockRange : Option Range
  batchSize : Option Int
deriving DecidableEq

structure ProcessorState where
  batches : List (PlanBatch SrcBatch.PlainBatchRequest)
  options : ProcOptions
  src : Option DataSource
  running : Bool
deriving DecidableEq

def settingsErrorMessage : String :=
  "Settings modifications are not allowed after start of processing"

/-- `EvmBatchProcessor.assertNotRunning` (processor.ts lines 172-176). -/
def assertNotRunning (s : ProcessorState) : Except String Unit :=
  if s.running then .error settingsErrorMessage else .ok ()

/-- `EvmBatchProcessor.addLog` (processor.ts lines 111-124): asserts not
running, then registers one log clause over the given range, which
`add` defaults to `{from: 0}`. -/
def addLog (s : ProcessorState) (contractAddress : List String)
    (filter : Option (List (List String))) (dataSel : Option Unit)
    (range : Option Range) : Except String ProcessorState :=
  match assertNotRunning s with
  | .error e => .error e
  | .ok _ =>
      let req : SrcBatch.PlainBatchRequest :=
        { logs := [{ address := some contractAddress, topics := filter, data := dataSel }]
          transactions := [] }
      .ok { s with batches :=
        s.batches ++ [{ range := range.getD { «from» := 0, «to» := none }, request := req }] }

/-- `EvmBatchProcessor.setPrometheusPort` (processor.ts lines 133-137). -/
def setPrometheusPort (s : ProcessorState) (port : Int) : Except String ProcessorState :=
  match assertNotRunning s with
  | .error e => .error e
  | .ok _ => .ok { s with options := { s.options with prometheusPort := some port } }

/-- `EvmBatchProcessor.setBlockRange` (processor.ts lines 145-149). -/
def setBlockRange (s : ProcessorState) (range : Option Range) :
    Except String ProcessorState :=
  match assertNotRunning s with
  | .error e => .error e
  | .ok _ => .ok { s with options := { s.options with blockRange := range } }

/-- `EvmBatchProcessor.setBatchSize` (processor.ts lines 151-155). -/
def setBatchSize (s : ProcessorState) (size : Int) : Except String ProcessorState :=
  match assertNotRunning s with
  | .error e => .error e
  | .ok _ => .ok { s with options := { s.options with batchSize := some size } }

/-- `EvmBatchProcessor.setDataSource` (processor.ts lines 166-170). -/
def setDataSource (s : ProcessorState) (src : DataSource) :
    Except String ProcessorState :=
  match assertNotRunning s with
  | .error e => .error e
  | .ok _ => .ok { s with src := some src }

/-- `EvmBatchProcessor.run` sets `this.running = true` as its first
statement (processor.ts line 212); only this flag matters to the
configuration guard. -/
def runStart (s : ProcessorState) : ProcessorState :=
  { s with running := true }

/-- C10.  After `run` has set the running flag, every configuration method
returns the settings error - and, returning only the error, registers no
batch and changes no option; before `run` (running flag unset) none of them
throws. -/
theorem c10_assert_not_running :
    (∀ (s : ProcessorState) a f d r p rg sz ds,
      addLog (runStart s) a f d r = .error settingsErrorMessage ∧
        setPrometheusPort (runStart s) p = .error settingsErrorMessage ∧
        setBlockRange (runStart s) rg = .error settingsErrorMessage ∧
        setBatchSize (runStart s) sz = .error settingsErrorMessage ∧
        setDataSource (runStart s) ds = .error settingsErrorMessage) ∧
      ∀ (s : ProcessorState), s.running = false → ∀ a f d r p rg sz ds,
        (addLog s a f d r).isOk = true ∧
          (setPrometheusPort s p).isOk = true ∧
          (setBlockRange s rg).isOk = true ∧
          (setBatchSize s sz).isOk = true ∧
          (setDataSource s ds).isOk = true := by
  constructor
  · intro s a f d r p rg sz ds
    refine ⟨?_, ?_, ?_, ?_, ?_⟩ <;>
      simp [addLog, setPrometheusPort, setBlockRange, setBatchSize, setDataSource,
        assertNotRunning, runStart]
  · intro s hs a f d r p rg sz ds
    refine ⟨?_, ?_, ?_, ?_, ?_⟩ <;>
      simp [addLog, setPrometheusPort, setBlockRange, setBatchSize, setDataSource,
        assertNotRunning, hs, Except.isOk, Except.toBool]

def c10Options : ProcOptions :=
  { prometheusPort := none, blockRange := none, batchSize := none }

def c10State : ProcessorState :=
  { batches := [], options := c10Options, src := none, running := false }

/-- Witness for C10 at a fresh processor state. -/
theorem c10_assert_not_running_witness :
    (addLog (runStart c10State) ["0xa"] none none none =
        .error settingsErrorMessage) ∧
      c10State.running = false ∧
      (addLog c10State ["0xa"] none none none).isOk = true :=
  ⟨(c10_assert_not_running.1 c10State ["0xa"] none none none 0 none 0
      { archive := "http://a", chain := none }).1,
    by decide,
    (c10_assert_not_running.2 c10State (by decide) ["0xa"] none none none 0 none 0
      { archive := "http://a", chain := none }).1⟩

end EvmProcessor
